import Mathlib

/-
Verification of the resumable harvesting pipeline of the
msc-thesis-job-demand-forecasting repository.

Shallow embedding of:
  - src/data_collection/ss_lv_scraper.py   (get_page, load_existing_urls,
    collect_urls_for_category, scrape_job_detail, run_scraper)
  - src/data_collection/build_master_dataset.py (merge_and_save)
Network effects are embedded by passing the remote behaviour explicitly
as a function (the response of each attempt, the content of each page);
files are embedded as lists of rows.
-/

namespace JobScraper

/-! ## Transport: `get_page` (ss_lv_scraper.py lines 62-74)

The Python loop `for attempt in range(retries)` issues `requests.get`;
status 200 returns the parsed page, status 404 returns `None` at once,
any other status falls through and retries without sleeping, and a
`RequestException` (network error) logs, sleeps 3 seconds and retries.
The remote is embedded as `att : Nat → Resp`, the outcome of the n-th
request attempt. The result records the returned page, the list of
sleep durations performed, and how many request attempts were made. -/

/-- Outcome of one HTTP request attempt: a response with a status code and
body, or a raised `requests.RequestException` (network error). -/
inductive Resp where
  | status (code : Nat) (body : String)
  | netErr
deriving DecidableEq

/-- Result of `get_page`: the page (`none` on failure), the durations of the
`time.sleep` calls performed, and the number of request attempts made. -/
structure GetPageResult where
  page : Option String
  delays : List Nat
  attemptsMade : Nat
deriving DecidableEq

/-- Loop body of `get_page`: `attempt` is the index of the next request,
`fuel` the number of attempts still allowed by the budget. -/
def getPageAux (att : Nat → Resp) : Nat → Nat → List Nat → GetPageResult
  | attempt, 0, delays => ⟨none, delays, attempt⟩
  | attempt, fuel + 1, delays =>
    match att attempt with
    | .netErr => getPageAux att (attempt + 1) fuel (delays ++ [3])
    | .status code body =>
      if code = 200 then ⟨some body, delays, attempt + 1⟩
      else if code = 404 then ⟨none, delays, attempt + 1⟩
      else getPageAux att (attempt + 1) fuel delays

/-- `get_page(url, retries)` of ss_lv_scraper.py, with the remote behaviour
for this url given by `att`. -/
def get_page (att : Nat → Resp) (retries : Nat) : GetPageResult :=
  getPageAux att 0 retries []

/-! ## Paginator: `collect_urls_for_category` (ss_lv_scraper.py lines 90-132)

The page contents are embedded as `fetch : Nat → Option (List String)`:
`none` when `get_page` fails for that listing page, otherwise the list of
candidate hrefs (the `job_links` list, i.e. the anchors whose href contains
`/msg/lv/work/are-required/`). The function returns the list of page
indices actually fetched together with the collected url list. -/

def BASE_URL : String := "https://www.ss.lv"

def MAX_PAGES : Nat := 7

/-- `full_url = BASE_URL + href if href.startswith("/") else href`; the
one-character `startswith` test is embedded as a first-character check. -/
def full_url (href : String) : String :=
  if href.data.head? = some '/' then BASE_URL ++ href else href

/-- Inner loop over `job_links`: threads the seen-set, the url accumulator
and the `new_found` counter. -/
def processLinks : List String → List String → List String → Nat →
    List String × List String × Nat
  | [], seen, urls, newFound => (seen, urls, newFound)
  | href :: rest, seen, urls, newFound =>
    if full_url href ∈ seen then processLinks rest seen urls newFound
    else processLinks rest (full_url href :: seen)
      (urls ++ [full_url href]) (newFound + 1)

/-- Page loop of `collect_urls_for_category`; `fuel` is the number of page
indices remaining under the `MAX_PAGES` ceiling. Returns the pages fetched
and the url accumulator. -/
def collectAux (fetch : Nat → Option (List String)) :
    Nat → Nat → List String → List String → List Nat × List String
  | 0, _, _, urls => ([], urls)
  | fuel + 1, pageNum, seen, urls =>
    match fetch pageNum with
    | none => ([pageNum], urls)
    | some jobLinks =>
      if jobLinks = [] then ([pageNum], urls)
      else if (processLinks jobLinks seen urls 0).2.2 = 0 then
        ([pageNum], (processLinks jobLinks seen urls 0).2.1)
      else
        ((pageNum ::
          (collectAux fetch fuel (pageNum + 1) (processLinks jobLinks seen urls 0).1
            (processLinks jobLinks seen urls 0).2.1).1),
         (collectAux fetch fuel (pageNum + 1) (processLinks jobLinks seen urls 0).1
            (processLinks jobLinks seen urls 0).2.1).2)

/-- `collect_urls_for_category` of ss_lv_scraper.py: pages 1 to `MAX_PAGES`,
starting from an empty seen-set and url list. -/
def collect_urls_for_category (fetch : Nat → Option (List String)) :
    List Nat × List String :=
  collectAux fetch MAX_PAGES 1 [] []

/-- State (seen-set, url accumulator) after the link-processing of pages
1..k, assuming pagination did not stop earlier; used to phrase hypotheses
about a run without repeating the fold. -/
def stateAfter (fetch : Nat → Option (List String)) : Nat → List String × List String
  | 0 => ([], [])
  | k + 1 =>
    match fetch (k + 1) with
    | none => stateAfter fetch k
    | some ls =>
      ((processLinks ls (stateAfter fetch k).1 (stateAfter fetch k).2 0).1,
       (processLinks ls (stateAfter fetch k).1 (stateAfter fetch k).2 0).2.1)

/-- The `new_found` counter produced while processing page p against the
state accumulated over pages 1..p-1 (0 when the fetch fails). -/
def newFoundAt (fetch : Nat → Option (List String)) : Nat → Nat
  | 0 => 0
  | k + 1 =>
    match fetch (k + 1) with
    | none => 0
    | some ls => (processLinks ls (stateAfter fetch k).1 (stateAfter fetch k).2 0).2.2

/-! ## Detail extraction: `scrape_job_detail` (ss_lv_scraper.py lines 137-197)

A fetched detail page is embedded by the four pieces of content the
extraction code looks at: the stripped text of `<h2 class="headline">`
(`none` when the element is absent), the stripped text of `<title>`, the
stripped text of the `<td>` following the "Datums" label (`none` when the
label chain is not found), and the text of the message div. -/

/-- Extraction-relevant content of a fetched detail page. -/
structure DetailPage where
  headlineTitle : Option String
  pageTitle : Option String
  datumsRaw : Option String
  descText : Option String
deriving DecidableEq

/-- Record produced by `scrape_job_detail` (the returned dict). -/
structure Detail where
  title : String
  posted_date : String
  description : String
deriving DecidableEq

/-- Title extraction: the `<h2 class="headline">` text, with a fallback to
the page `<title>` minus " - SS.LV" when the former is missing or empty. -/
def extractTitle (pg : DetailPage) : String :=
  let t1 := match pg.headlineTitle with
    | some t => t
    | none => ""
  if t1 = "" then
    match pg.pageTitle with
    | some pt => ((pt.replace " - SS.LV" "").trim)
    | none => t1
  else t1

/-- Leap-year rule used by `datetime`. -/
def isLeap (y : Nat) : Bool :=
  (y % 4 = 0 && !(y % 100 = 0)) || y % 400 = 0

/-- Number of days of month m in year y. -/
def daysInMonth (y m : Nat) : Nat :=
  if m = 2 then (if isLeap y then 29 else 28)
  else if m = 4 ∨ m = 6 ∨ m = 9 ∨ m = 11 then 30
  else 31

/-- Split a character list on a separator character, keeping empty
segments, as Python `str.split(sep)` does. -/
def splitCharsOn (sep : Char) : List Char → List (List Char)
  | [] => [[]]
  | c :: rest =>
    if c = sep then [] :: splitCharsOn sep rest
    else
      match splitCharsOn sep rest with
      | [] => [[c]]
      | g :: gs => (c :: g) :: gs

/-- Python `s.split(sep)` for a one-character separator. -/
def splitOnChar (sep : Char) (s : String) : List String :=
  (splitCharsOn sep s.data).map (fun cs => String.mk cs)

/-- Word accumulator for Python `str.split()` with no argument: split on
whitespace runs, discarding empty words. -/
def wordsAux : List Char → List Char → List (List Char)
  | [], acc => if acc = [] then [] else [acc.reverse]
  | c :: rest, acc =>
    if c.isWhitespace then
      if acc = [] then wordsAux rest []
      else acc.reverse :: wordsAux rest []
    else wordsAux rest (c :: acc)

/-- Python `s.split()`: the whitespace-separated words of s. -/
def pySplit (s : String) : List String :=
  (wordsAux s.data []).map (fun cs => String.mk cs)

/-- Decimal value of a digit string. -/
def natOfDigits (cs : List Char) : Nat :=
  cs.foldl (fun acc c => 10 * acc + (c.toNat - 48)) 0

/-- String made only of decimal digits (and nonempty). -/
def isDigitStr (s : String) : Bool :=
  !(s.data = []) && s.data.all Char.isDigit

/-- `datetime.strptime(raw, "%d.%m.%Y")`: three dot-separated components,
day of 1-2 digits in 1..31, month of 1-2 digits in 1..12, year of exactly
4 digits, and the day must exist in that month; any other input raises
`ValueError`, embedded as `none`. -/
def strptimeDMY (s : String) : Option (Nat × Nat × Nat) :=
  match splitOnChar '.' s with
  | [ds, ms, ys] =>
    if isDigitStr ds ∧ ds.data.length ≤ 2 ∧ isDigitStr ms ∧ ms.data.length ≤ 2 ∧
       isDigitStr ys ∧ ys.data.length = 4 then
      if 1 ≤ natOfDigits ds.data ∧ 1 ≤ natOfDigits ms.data ∧
         natOfDigits ms.data ≤ 12 ∧ 1 ≤ natOfDigits ys.data ∧
         natOfDigits ds.data ≤ daysInMonth (natOfDigits ys.data) (natOfDigits ms.data) then
        some (natOfDigits ds.data, natOfDigits ms.data, natOfDigits ys.data)
      else none
    else none
  | _ => none

/-- Two-digit zero padding of `strftime`. -/
def pad2 (n : Nat) : String :=
  if n < 10 then "0" ++ toString n else toString n

/-- Four-digit zero padding of `strftime` for the year. -/
def pad4 (n : Nat) : String :=
  if n < 10 then "000" ++ toString n
  else if n < 100 then "00" ++ toString n
  else if n < 1000 then "0" ++ toString n
  else toString n

/-- `parsed.strftime("%Y-%m-%d")`. -/
def strftimeISO : Nat × Nat × Nat → String
  | (d, m, y) => pad4 y ++ "-" ++ pad2 m ++ "-" ++ pad2 d

/-- Posted-date extraction (lines 165-179): empty when the "Datums" chain
finds nothing; otherwise the raw cell text converted DD.MM.YYYY →
YYYY-MM-DD, with the raw text kept verbatim when parsing fails — this last
branch is the `except ValueError: posted_date = raw_date` line. -/
def extract_posted_date (raw : Option String) : String :=
  match raw with
  | none => ""
  | some rawDate =>
    match strptimeDMY rawDate with
    | some dmy => strftimeISO dmy
    | none => rawDate

/-- `" ".join(description.split())`: split on whitespace runs, rejoin with
single spaces. -/
def cleanDescription (s : String) : String :=
  String.intercalate " " (pySplit s)

/-- `scrape_job_detail` of ss_lv_scraper.py: `none` exactly when `get_page`
returned `None`; otherwise a dict is always built from whatever the three
extractions produced (empty strings when elements are absent). -/
def scrape_job_detail (fetched : Option DetailPage) : Option Detail :=
  match fetched with
  | none => none
  | some pg =>
    some ⟨extractTitle pg,
          extract_posted_date pg.datumsRaw,
          cleanDescription (match pg.descText with | some d => d | none => "")⟩

/-- ISO 8601 calendar date in the shape YYYY-MM-DD, the format the spec
requires of `posted_date`; stated from the spec wording for comparison
with the code output. -/
def isISO8601date (s : String) : Bool :=
  match splitOnChar '-' s with
  | [ys, ms, ds] =>
    isDigitStr ys && decide (ys.data.length = 4) &&
    isDigitStr ms && decide (ms.data.length = 2) &&
    isDigitStr ds && decide (ds.data.length = 2) &&
    decide (1 ≤ natOfDigits ms.data) && decide (natOfDigits ms.data ≤ 12) &&
    decide (1 ≤ natOfDigits ds.data) &&
    decide (natOfDigits ds.data ≤
      daysInMonth (natOfDigits ys.data) (natOfDigits ms.data))
  | _ => false

/-! ## Checkpoint store and orchestrator: `load_existing_urls`,
`run_scraper` (ss_lv_scraper.py lines 77-85 and 202-279)

The CSV artifact is embedded as a list of rows; appending a row and
flushing is list append. The remote is embedded by `listUrls` (per
category slug, the url list stage 1 collects — deterministic for an
unchanged remote) and `detail` (per url, the outcome of
`scrape_job_detail`). -/

/-- One CSV row of the scraper artifact, in the order of `fieldnames`. -/
structure JobRow where
  category : String
  title : String
  url : String
  posted_date : String
  scraped_date : String
  description : String
deriving DecidableEq

/-- `load_existing_urls`: the url column of the existing artifact (a set in
the source; embedded as the list of urls, used through membership). -/
def load_existing_urls (rows : List JobRow) : List String :=
  rows.map (fun r => r.url)

/-- Detail-loop body of `run_scraper` (lines 243-267): on a failed scrape
the state is unchanged (the failure is only logged); on success the row is
written and flushed and the url is added to the in-memory known set. -/
def processUrl (detail : String → Option Detail) (catName scrapedDate : String)
    (st : List JobRow × List String) (url : String) : List JobRow × List String :=
  match detail url with
  | none => st
  | some d =>
    (st.1 ++ [⟨catName, d.title, url, d.posted_date, scrapedDate, d.description⟩],
     st.2 ++ [url])

/-- Per-category body of `run_scraper` (lines 225-269): stage 1 collects
`all_urls`, the known set filters them once, and the detail loop folds over
the remaining ones. -/
def runCategory (listUrls : String → List String) (detail : String → Option Detail)
    (scrapedDate : String) (st : List JobRow × List String) (cat : String × String) :
    List JobRow × List String :=
  if (listUrls cat.1).filter (fun u => decide (u ∉ st.2)) = [] then st
  else ((listUrls cat.1).filter (fun u => decide (u ∉ st.2))).foldl
    (processUrl detail cat.2 scrapedDate) st

/-- `run_scraper`: loads the known url set from the artifact, then runs
every category in order, appending to the artifact; returns the artifact
content after the run. -/
def run_scraper (listUrls : String → List String) (detail : String → Option Detail)
    (cats : List (String × String)) (scrapedDate : String) (csv0 : List JobRow) :
    List JobRow :=
  (cats.foldl (runCategory listUrls detail scrapedDate)
    (csv0, load_existing_urls csv0)).1

/-! ## Merger: `merge_and_save` (build_master_dataset.py lines 130-151)

Rows of the master dataset carry a `source` column in addition; the
deduplication walks `ss_rows + cv_rows` keeping a row iff its url is
nonempty and not seen yet. -/

/-- One row of the master dataset, in the order of `FIELDNAMES`. -/
structure MasterRow where
  source : String
  category : String
  title : String
  url : String
  posted_date : String
  scraped_date : String
  description : String
deriving DecidableEq

/-- Dedup loop of `merge_and_save`: `if url and url not in seen_urls`. -/
def dedupAux : List MasterRow → List String → List MasterRow
  | [], _ => []
  | r :: rest, seen =>
    if ¬(r.url = "") ∧ r.url ∉ seen then r :: dedupAux rest (r.url :: seen)
    else dedupAux rest seen

/-- `merge_and_save` of build_master_dataset.py (the `unique_rows` it
writes): concatenate the SS.lv rows before the CV.lv rows, then
deduplicate by url. -/
def merge_and_save (ss_rows cv_rows : List MasterRow) : List MasterRow :=
  dedupAux (ss_rows ++ cv_rows) []

/-! ## Concrete fixtures used by witnesses and counterexamples -/

/-- Transport mock: network error on the first two attempts, HTTP 200 on
every later one. -/
def mockNetErr2 : Nat → Resp := fun n => if n < 2 then .netErr else .status 200 "page"

/-- Transport mock: network error on attempt 0, HTTP 404 afterwards. -/
def mock404 : Nat → Resp := fun n => if n = 0 then .netErr else .status 404 ""

/-- Transport mock: HTTP 404 on every attempt. -/
def mockAll404 : Nat → Resp := fun _ => .status 404 "x"

/-- Remote whose every listing page is empty. -/
def fetchEmptyAll : Nat → Option (List String) := fun _ => some []

/-- Remote whose page 4 is empty while every other page carries one fresh
link. -/
def fetchW : Nat → Option (List String) :=
  fun p => if p = 4 then some [] else some ["/a" ++ toString p]

/-- Remote whose every page carries one fresh link, so pagination only ends
at the `MAX_PAGES` ceiling. -/
def fetchSeq : Nat → Option (List String) := fun p => some [toString p]

/-- Remote whose every page repeats the same single link. -/
def dupFetch : Nat → Option (List String) := fun _ => some ["/a"]

/-- Master row with url "A" from source "x", title "T1". -/
def rowA1 : MasterRow := ⟨"x", "", "T1", "A", "", "", ""⟩

/-- Master row with url "A" from source "y", title "T2". -/
def rowA2 : MasterRow := ⟨"y", "", "T2", "A", "", "", ""⟩

/-- Master row whose url is absent (empty). -/
def rowNoUrl : MasterRow := ⟨"x", "", "T", "", "", "", ""⟩

/-- Detail page whose "Datums" cell holds a date in an unexpected format. -/
def badDatePage : DetailPage := ⟨none, none, some "12/02/2025", none⟩

/-- Detail page from which no field can be extracted. -/
def blankPage : DetailPage := ⟨none, none, none, none⟩

/-! ## Transport lemmas -/

lemma getPageAux_delays_mem (att : Nat → Resp) :
    ∀ fuel attempt delays d, d ∈ (getPageAux att attempt fuel delays).delays →
      d ∈ delays ∨ d = 3 := by
  intro fuel
  induction fuel with
  | zero => intro attempt delays d hd; exact Or.inl hd
  | succ f ih =>
    intro attempt delays d hd
    rw [getPageAux] at hd
    cases h : att attempt with
    | netErr =>
      rw [h] at hd
      rcases ih (attempt + 1) (delays ++ [3]) d hd with hmem | h3
      · rcases List.mem_append.mp hmem with hl | hr
        · exact Or.inl hl
        · simp only [List.mem_singleton] at hr; exact Or.inr hr
      · exact Or.inr h3
    | status code body =>
      rw [h] at hd
      by_cases c200 : code = 200
      · simp only [c200, if_true] at hd; exact Or.inl hd
      · by_cases c404 : code = 404
        · simp only [c200, c404, if_false, if_true] at hd; exact Or.inl hd
        · simp only [c200, c404, if_false] at hd
          exact ih (attempt + 1) delays d hd

lemma getPageAux_netErr_run (att : Nat → Resp) (k : Nat) :
    ∀ attempt fuel delays, (∀ j, j < k → att (attempt + j) = .netErr) → k ≤ fuel →
      getPageAux att attempt fuel delays =
        getPageAux att (attempt + k) (fuel - k) (delays ++ List.replicate k 3) := by
  induction k with
  | zero => intro attempt fuel delays _ _; simp
  | succ k ih =>
    intro attempt fuel delays hpre hk
    obtain ⟨f, rfl⟩ : ∃ f, fuel = f + 1 := ⟨fuel - 1, by omega⟩
    have h0 : att attempt = .netErr := by
      have := hpre 0 (Nat.succ_pos k); simpa using this
    rw [getPageAux, h0]
    rw [ih (attempt + 1) f (delays ++ [3])
      (fun j hj => by
        have := hpre (j + 1) (by omega)
        simpa [Nat.add_assoc, Nat.add_comm 1 j] using this)
      (by omega)]
    have e1 : attempt + 1 + k = attempt + (k + 1) := by omega
    have e2 : f - k = f + 1 - (k + 1) := by omega
    have e3 : (delays ++ [3]) ++ List.replicate k 3 = delays ++ List.replicate (k + 1) 3 := by
      rw [List.append_assoc, List.replicate_succ]; rfl
    rw [e1, e2, e3]

lemma getPageAux_isSome_iff (att : Nat → Resp) :
    ∀ fuel attempt delays,
      ((getPageAux att attempt fuel delays).page.isSome = true ↔
        ∃ k, attempt ≤ k ∧ k < (getPageAux att attempt fuel delays).attemptsMade ∧
          ∃ b, att k = .status 200 b) := by
  intro fuel
  induction fuel with
  | zero =>
    intro attempt delays
    simp only [getPageAux, Option.isSome_none]
    constructor
    · intro h; cases h
    · rintro ⟨k, hk1, hk2, -⟩; omega
  | succ f ih =>
    intro attempt delays
    rw [getPageAux]
    cases h : att attempt with
    | netErr =>
      rw [ih (attempt + 1) (delays ++ [3])]
      constructor
      · rintro ⟨k, hk1, hk2, hb⟩; exact ⟨k, by omega, hk2, hb⟩
      · rintro ⟨k, hk1, hk2, b, hb⟩
        refine ⟨k, ?_, hk2, b, hb⟩
        rcases Nat.eq_or_lt_of_le hk1 with rfl | hlt
        · rw [h] at hb; cases hb
        · omega
    | status code body =>
      dsimp only
      by_cases c200 : code = 200
      · subst c200
        rw [if_pos rfl]
        constructor
        · intro _; exact ⟨attempt, le_refl _, Nat.lt_succ_self attempt, body, h⟩
        · intro _; rfl
      · by_cases c404 : code = 404
        · rw [if_neg c200, if_pos c404]
          simp only [Option.isSome_none]
          constructor
          · intro hfalse; cases hfalse
          · rintro ⟨k, hk1, hk2, b, hb⟩
            have hk2' : k < attempt + 1 := hk2
            have : k = attempt := by omega
            subst this
            rw [h] at hb
            cases hb
            exact absurd rfl c200
        · rw [if_neg c200, if_neg c404]
          rw [ih (attempt + 1) delays]
          constructor
          · rintro ⟨k, hk1, hk2, hb⟩; exact ⟨k, by omega, hk2, hb⟩
          · rintro ⟨k, hk1, hk2, b, hb⟩
            refine ⟨k, ?_, hk2, b, hb⟩
            rcases Nat.eq_or_lt_of_le hk1 with rfl | hlt
            · rw [h] at hb; cases hb; exact absurd rfl c200
            · omega

/-! ## Claim theorems: transport -/

/-- C3: for any url whose fetch raises a network error on exactly the first
2 attempts and succeeds on the 3rd, `get_page` returns the page for every
retry budget of at least 3 and a failure for budget 2, and every retry
delay it performs is the fixed 3 seconds (never a growing one). -/
theorem get_page_retry_budget (att : Nat → Resp) (b : String)
    (h0 : att 0 = .netErr) (h1 : att 1 = .netErr) (h2 : att 2 = .status 200 b) :
    (∀ r, 3 ≤ r → get_page att r = ⟨some b, [3, 3], 3⟩)
    ∧ get_page att 2 = ⟨none, [3, 3], 2⟩
    ∧ (∀ (att' : Nat → Resp) (r d : Nat), d ∈ (get_page att' r).delays → d = 3) := by
  refine ⟨?_, ?_, ?_⟩
  · intro r hr
    obtain ⟨k, rfl⟩ : ∃ k, r = k + 3 := ⟨r - 3, by omega⟩
    show getPageAux att 0 (k + 3) [] = _
    rw [show k + 3 = (k + 2) + 1 from rfl, getPageAux, h0]
    rw [show k + 2 = (k + 1) + 1 from rfl, getPageAux, h1]
    rw [getPageAux, h2]
    rfl
  · show getPageAux att 0 2 [] = _
    rw [show (2 : Nat) = 1 + 1 from rfl, getPageAux, h0, getPageAux, h1]
    rfl
  · intro att' r d hd
    rcases getPageAux_delays_mem att' r 0 [] d hd with hmem | h3
    · cases hmem
    · exact h3

/-- Witness for C3 at the concrete mock that fails twice then serves
status 200. -/
theorem get_page_retry_budget_witness :
    (mockNetErr2 0 = Resp.netErr ∧ mockNetErr2 1 = Resp.netErr ∧
      mockNetErr2 2 = Resp.status 200 "page")
    ∧ get_page mockNetErr2 3 = ⟨some "page", [3, 3], 3⟩
    ∧ get_page mockNetErr2 2 = ⟨none, [3, 3], 2⟩ :=
  ⟨⟨rfl, rfl, rfl⟩,
   (get_page_retry_budget mockNetErr2 "page" rfl rfl rfl).1 3 (by norm_num),
   (get_page_retry_budget mockNetErr2 "page" rfl rfl rfl).2.1⟩

/-- C8: when the attempts before index k are transient network errors and
attempt k receives HTTP 404, `get_page` returns a failure having made
exactly k+1 attempts, for every budget larger than k — the 404 is terminal
and never retried, however much budget remains. -/
theorem get_page_404_terminal (att : Nat → Resp) (k r : Nat) (b : String)
    (hpre : ∀ j, j < k → att j = .netErr) (hk : att k = .status 404 b)
    (hkr : k < r) :
    get_page att r = ⟨none, List.replicate k 3, k + 1⟩ := by
  show getPageAux att 0 r [] = _
  rw [getPageAux_netErr_run att k 0 r []
    (fun j hj => by simpa using hpre j hj) (le_of_lt hkr)]
  obtain ⟨f, hf⟩ : ∃ f, r - k = f + 1 := ⟨r - k - 1, by omega⟩
  rw [hf, Nat.zero_add, getPageAux, hk]
  dsimp only
  rw [if_neg (by norm_num : ¬(404 = 200)), if_pos rfl]
  rfl

/-- Witness for C8 at a mock suffering one network error and then a 404,
with a budget of 3. -/
theorem get_page_404_terminal_witness :
    ((∀ j, j < 1 → mock404 j = Resp.netErr) ∧ mock404 1 = Resp.status 404 ""
      ∧ 1 < 3)
    ∧ get_page mock404 3 = ⟨none, List.replicate 1 3, 2⟩ :=
  ⟨⟨fun j hj => by interval_cases j; rfl, rfl, by norm_num⟩,
   get_page_404_terminal mock404 1 3 ""
     (fun j hj => by interval_cases j; rfl) rfl (by norm_num)⟩

/-- C10: `get_page` yields a page exactly when one of the attempts it made
returned HTTP status 200; a 404, a budget exhausted by other non-200
statuses, and a budget exhausted by network errors all return the very
same `none`, indistinguishable to the caller. -/
theorem get_page_failure_conflation :
    (∀ (att : Nat → Resp) (r : Nat),
      ((get_page att r).page.isSome = true ↔
        ∃ k, k < (get_page att r).attemptsMade ∧ ∃ b, att k = .status 200 b))
    ∧ (∀ (att : Nat → Resp) (r : Nat) (b : String), 1 ≤ r →
        att 0 = .status 404 b → (get_page att r).page = none)
    ∧ (∀ (att : Nat → Resp) (r : Nat), (∀ k, att k = .netErr) →
        (get_page att r).page = none)
    ∧ (∀ (att : Nat → Resp) (r : Nat),
        (∀ k, ∃ c b, att k = .status c b ∧ c ≠ 200 ∧ c ≠ 404) →
        (get_page att r).page = none) := by
  have key : ∀ (att : Nat → Resp) (r : Nat),
      ((get_page att r).page.isSome = true ↔
        ∃ k, k < (get_page att r).attemptsMade ∧ ∃ b, att k = .status 200 b) := by
    intro att r
    rw [show get_page att r = getPageAux att 0 r [] from rfl,
      getPageAux_isSome_iff att r 0 []]
    constructor
    · rintro ⟨k, -, hk2, hb⟩; exact ⟨k, hk2, hb⟩
    · rintro ⟨k, hk2, hb⟩; exact ⟨k, Nat.zero_le k, hk2, hb⟩
  refine ⟨key, ?_, ?_, ?_⟩
  · intro att r b hr h404
    obtain ⟨f, rfl⟩ : ∃ f, r = f + 1 := ⟨r - 1, by omega⟩
    show (getPageAux att 0 (f + 1) []).page = none
    rw [getPageAux, h404]
    dsimp only
    rw [if_neg (by norm_num : ¬(404 = 200)), if_pos rfl]
  · intro att r hnet
    rw [← Option.not_isSome_iff_eq_none]
    intro hsome
    obtain ⟨k, -, b, hb⟩ := (key att r).mp hsome
    rw [hnet k] at hb
    cases hb
  · intro att r hbad
    rw [← Option.not_isSome_iff_eq_none]
    intro hsome
    obtain ⟨k, -, b, hb⟩ := (key att r).mp hsome
    obtain ⟨c, b', hc, hc200, -⟩ := hbad k
    rw [hc] at hb
    cases hb
    exact hc200 rfl

/-- Witness for C10 applying the 404 conjunct at an all-404 mock with
budget 3. -/
theorem get_page_failure_conflation_witness :
    (1 ≤ (3 : Nat) ∧ mockAll404 0 = Resp.status 404 "x")
    ∧ (get_page mockAll404 3).page = none :=
  ⟨⟨by norm_num, rfl⟩,
   get_page_failure_conflation.2.1 mockAll404 3 "x" (by norm_num) rfl⟩

/-! ## Paginator lemmas -/

lemma processLinks_append (ls : List String) :
    ∀ seen urls n, ∃ added, (processLinks ls seen urls n).2.1 = urls ++ added ∧
      (processLinks ls seen urls n).2.2 = n + added.length := by
  induction ls with
  | nil =>
    intro seen urls n
    exact ⟨[], by simp [processLinks]⟩
  | cons a t ih =>
    intro seen urls n
    rw [processLinks]
    by_cases hm : full_url a ∈ seen
    · rw [if_pos hm]; exact ih seen urls n
    · rw [if_neg hm]
      obtain ⟨added, h1, h2⟩ := ih (full_url a :: seen) (urls ++ [full_url a]) (n + 1)
      refine ⟨full_url a :: added, ?_, ?_⟩
      · rw [h1, List.append_assoc]; rfl
      · rw [h2]; simp; omega

lemma collectAux_stop_none (fetch : Nat → Option (List String)) (fuel p : Nat)
    (seen urls : List String) (h : fetch p = none) :
    collectAux fetch (fuel + 1) p seen urls = ([p], urls) := by
  rw [collectAux, h]

lemma collectAux_stop_empty (fetch : Nat → Option (List String)) (fuel p : Nat)
    (seen urls : List String) (h : fetch p = some []) :
    collectAux fetch (fuel + 1) p seen urls = ([p], urls) := by
  rw [collectAux, h]
  dsimp only
  rw [if_pos rfl]

lemma collectAux_stop_alldup (fetch : Nat → Option (List String)) (fuel p : Nat)
    (seen urls ls : List String) (h : fetch p = some ls) (hne : ls ≠ [])
    (hz : (processLinks ls seen urls 0).2.2 = 0) :
    collectAux fetch (fuel + 1) p seen urls =
      ([p], (processLinks ls seen urls 0).2.1) := by
  rw [collectAux, h]
  dsimp only
  rw [if_neg hne, if_pos hz]

lemma collectAux_step (fetch : Nat → Option (List String)) (fuel p : Nat)
    (seen urls ls : List String) (h : fetch p = some ls) (hne : ls ≠ [])
    (hpos : (processLinks ls seen urls 0).2.2 ≠ 0) :
    collectAux fetch (fuel + 1) p seen urls =
      ((p :: (collectAux fetch fuel (p + 1) (processLinks ls seen urls 0).1
          (processLinks ls seen urls 0).2.1).1),
       (collectAux fetch fuel (p + 1) (processLinks ls seen urls 0).1
          (processLinks ls seen urls 0).2.1).2) := by
  rw [collectAux, h]
  dsimp only
  rw [if_neg hne, if_neg hpos]

lemma collectAux_visited_bound (fetch : Nat → Option (List String)) :
    ∀ fuel p seen urls q, q ∈ (collectAux fetch fuel p seen urls).1 →
      p ≤ q ∧ q < p + fuel := by
  intro fuel
  induction fuel with
  | zero =>
    intro p seen urls q hq
    simp [collectAux] at hq
  | succ f ih =>
    intro p seen urls q hq
    rw [collectAux] at hq
    cases h : fetch p with
    | none =>
      rw [h] at hq
      simp only [List.mem_singleton] at hq
      omega
    | some ls =>
      rw [h] at hq
      dsimp only at hq
      by_cases hnil : ls = []
      · rw [if_pos hnil] at hq
        simp only [List.mem_singleton] at hq
        omega
      · rw [if_neg hnil] at hq
        by_cases hz : (processLinks ls seen urls 0).2.2 = 0
        · rw [if_pos hz] at hq
          simp only [List.mem_singleton] at hq
          omega
        · rw [if_neg hz] at hq
          simp only [List.mem_cons] at hq
          rcases hq with rfl | hq
          · omega
          · have := ih (p + 1) _ _ q hq
            omega

lemma collectAux_head (fetch : Nat → Option (List String)) (fuel p : Nat)
    (seen urls : List String) :
    ∃ rest, (collectAux fetch (fuel + 1) p seen urls).1 = p :: rest := by
  rw [collectAux]
  cases h : fetch p with
  | none => exact ⟨[], rfl⟩
  | some ls =>
    dsimp only
    by_cases hnil : ls = []
    · rw [if_pos hnil]; exact ⟨[], rfl⟩
    · rw [if_neg hnil]
      by_cases hz : (processLinks ls seen urls 0).2.2 = 0
      · rw [if_pos hz]; exact ⟨[], rfl⟩
      · rw [if_neg hz]; exact ⟨_, rfl⟩

lemma stateAfter_succ_some (fetch : Nat → Option (List String)) (k : Nat)
    (ls : List String) (h : fetch (k + 1) = some ls) :
    stateAfter fetch (k + 1) =
      ((processLinks ls (stateAfter fetch k).1 (stateAfter fetch k).2 0).1,
       (processLinks ls (stateAfter fetch k).1 (stateAfter fetch k).2 0).2.1) := by
  rw [stateAfter, h]

lemma collectAux_stop_empty_fst (fetch : Nat → Option (List String)) (fuel p : Nat)
    (seen urls : List String) (h : fetch p = some []) :
    (collectAux fetch (fuel + 1) p seen urls).1 = [p] := by
  rw [collectAux_stop_empty fetch fuel p seen urls h]

lemma collectAux_step_fst (fetch : Nat → Option (List String)) (fuel p : Nat)
    (seen urls ls : List String) (h : fetch p = some ls) (hne : ls ≠ [])
    (hpos : (processLinks ls seen urls 0).2.2 ≠ 0) :
    (collectAux fetch (fuel + 1) p seen urls).1 =
      p :: (collectAux fetch fuel (p + 1) (processLinks ls seen urls 0).1
        (processLinks ls seen urls 0).2.1).1 := by
  rw [collectAux_step fetch fuel p seen urls ls h hne hpos]

lemma stateAfter_succ_eq (fetch : Nat → Option (List String)) (k : Nat)
    (ls s u : List String) (h : fetch (k + 1) = some ls)
    (hs : stateAfter fetch k = (s, u)) :
    stateAfter fetch (k + 1) =
      ((processLinks ls s u 0).1, (processLinks ls s u 0).2.1) := by
  rw [stateAfter, h, hs]

lemma newFoundAt_pos (fetch : Nat → Option (List String)) (p : Nat)
    (h : 1 ≤ newFoundAt fetch (p + 1)) :
    ∃ ls, fetch (p + 1) = some ls ∧ ls ≠ [] ∧
      (processLinks ls (stateAfter fetch p).1 (stateAfter fetch p).2 0).2.2 ≠ 0 := by
  rw [newFoundAt] at h
  cases hf : fetch (p + 1) with
  | none => rw [hf] at h; exact absurd h (by norm_num)
  | some ls =>
    rw [hf] at h
    dsimp only at h
    refine ⟨ls, rfl, ?_, by omega⟩
    rintro rfl
    rw [processLinks] at h
    exact absurd h (by norm_num)

/-! ## Claim theorems: paginator -/

/-- C4 counterexample: a remote whose pages are all empty satisfies the
claim hypothesis (page 4 yields zero candidate keys) yet the paginator
fetches only page 1 and stops there, not pages 1 through 4. -/
theorem pagination_empty_page_counterexample :
    fetchEmptyAll 4 = some []
    ∧ ¬((collect_urls_for_category fetchEmptyAll).1 = [1, 2, 3, 4])
    ∧ (collect_urls_for_category fetchEmptyAll).1 = [1] :=
  ⟨rfl, by decide, by decide⟩

/-- C4 (amended): when pages 1-3 each fetch successfully and each yield at
least one new candidate key while page 4 yields zero candidate keys, the
paginator fetches exactly pages 1, 2, 3, 4 and stops, never fetching page
5; and for every remote, no fetched page index ever exceeds the
`MAX_PAGES` ceiling — the ceiling bounds the loop before any other
terminal condition can be consulted. -/
theorem pagination_empty_page_and_ceiling (fetch : Nat → Option (List String))
    (h1 : 1 ≤ newFoundAt fetch 1) (h2 : 1 ≤ newFoundAt fetch 2)
    (h3 : 1 ≤ newFoundAt fetch 3) (h4 : fetch 4 = some []) :
    (collect_urls_for_category fetch).1 = [1, 2, 3, 4]
    ∧ ∀ (g : Nat → Option (List String)) (q : Nat),
        q ∈ (collect_urls_for_category g).1 → q ≤ MAX_PAGES := by
  constructor
  · obtain ⟨ls1, hf1, hne1, hz1⟩ := newFoundAt_pos fetch 0 h1
    obtain ⟨ls2, hf2, hne2, hz2⟩ := newFoundAt_pos fetch 1 h2
    obtain ⟨ls3, hf3, hne3, hz3⟩ := newFoundAt_pos fetch 2 h3
    have hf1' : fetch 1 = some ls1 := hf1
    have hf2' : fetch 2 = some ls2 := hf2
    have hf3' : fetch 3 = some ls3 := hf3
    have hz1' : (processLinks ls1 [] [] 0).2.2 ≠ 0 := hz1
    set A1 := (processLinks ls1 [] [] 0).1 with hA1
    set B1 := (processLinks ls1 [] [] 0).2.1 with hB1
    have e1 : stateAfter fetch 1 = (A1, B1) :=
      stateAfter_succ_eq fetch 0 ls1 [] [] hf1 rfl
    rw [e1] at hz2
    have hz2' : (processLinks ls2 A1 B1 0).2.2 ≠ 0 := hz2
    set A2 := (processLinks ls2 A1 B1 0).1 with hA2
    set B2 := (processLinks ls2 A1 B1 0).2.1 with hB2
    have e2 : stateAfter fetch 2 = (A2, B2) :=
      stateAfter_succ_eq fetch 1 ls2 A1 B1 hf2' e1
    rw [e2] at hz3
    have hz3' : (processLinks ls3 A2 B2 0).2.2 ≠ 0 := hz3
    set A3 := (processLinks ls3 A2 B2 0).1 with hA3
    set B3 := (processLinks ls3 A2 B2 0).2.1 with hB3
    have s1 : (collectAux fetch 7 1 [] []).1 = 1 :: (collectAux fetch 6 2 A1 B1).1 :=
      collectAux_step_fst fetch 6 1 [] [] ls1 hf1' hne1 hz1'
    have s2 : (collectAux fetch 6 2 A1 B1).1 = 2 :: (collectAux fetch 5 3 A2 B2).1 :=
      collectAux_step_fst fetch 5 2 A1 B1 ls2 hf2' hne2 hz2'
    have s3 : (collectAux fetch 5 3 A2 B2).1 = 3 :: (collectAux fetch 4 4 A3 B3).1 :=
      collectAux_step_fst fetch 4 3 A2 B2 ls3 hf3' hne3 hz3'
    have s4 : (collectAux fetch 4 4 A3 B3).1 = [4] :=
      collectAux_stop_empty_fst fetch 3 4 A3 B3 h4
    show (collectAux fetch 7 1 [] []).1 = [1, 2, 3, 4]
    rw [s1, s2, s3, s4]
  · intro g q hq
    have hb := collectAux_visited_bound g 7 1 [] [] q hq
    show q ≤ 7
    omega

/-- Witness for C4 at a remote whose pages 1-3 carry one fresh link each
and whose page 4 is empty. -/
theorem pagination_empty_page_and_ceiling_witness :
    (1 ≤ newFoundAt fetchW 1 ∧ 1 ≤ newFoundAt fetchW 2 ∧
      1 ≤ newFoundAt fetchW 3 ∧ fetchW 4 = some [])
    ∧ (collect_urls_for_category fetchW).1 = [1, 2, 3, 4] :=
  ⟨⟨by decide, by decide, by decide, rfl⟩,
   (pagination_empty_page_and_ceiling fetchW
     (by decide) (by decide) (by decide) rfl).1⟩

/-- C5 counterexample: a remote serving one fresh link on every page gives
page 7 at least one new key, yet pagination stops after page 7 and never
continues to page 8 — the `MAX_PAGES` ceiling overrides the HasNew
continuation the claim states unconditionally. -/
theorem hasNew_ceiling_counterexample :
    1 ≤ newFoundAt fetchSeq 7
    ∧ (collect_urls_for_category fetchSeq).1 = [1, 2, 3, 4, 5, 6, 7]
    ∧ 8 ∉ (collect_urls_for_category fetchSeq).1 :=
  ⟨by decide, by decide, by decide⟩

/-- C5 (amended): from any paginator configuration, a fetched page with a
nonempty candidate list all of whose keys are already seen is the last
page visited; a fetched page with at least one new key appends the new
keys to the url accumulator and, provided the `MAX_PAGES` ceiling leaves
room for a further page, continues to the next page index. -/
theorem all_duplicate_stops_hasNew_continues (fetch : Nat → Option (List String))
    (fuel p : Nat) (seen urls ls : List String)
    (hf : fetch p = some ls) (hne : ls ≠ []) :
    ((processLinks ls seen urls 0).2.2 = 0 →
      (collectAux fetch (fuel + 1) p seen urls).1 = [p])
    ∧ (1 ≤ (processLinks ls seen urls 0).2.2 →
        (∃ added, added ≠ [] ∧ (processLinks ls seen urls 0).2.1 = urls ++ added)
        ∧ ∃ rest, (collectAux fetch (fuel + 2) p seen urls).1 = p :: (p + 1) :: rest) := by
  constructor
  · intro hz
    rw [collectAux_stop_alldup fetch fuel p seen urls ls hf hne hz]
  · intro hpos
    constructor
    · obtain ⟨added, ha, hc⟩ := processLinks_append ls seen urls 0
      refine ⟨added, ?_, ha⟩
      rintro rfl
      rw [hc] at hpos
      simp at hpos
    · obtain ⟨rest, hr⟩ := collectAux_head fetch fuel (p + 1)
        (processLinks ls seen urls 0).1 (processLinks ls seen urls 0).2.1
      refine ⟨rest, ?_⟩
      show (collectAux fetch (fuel + 1 + 1) p seen urls).1 = p :: (p + 1) :: rest
      rw [collectAux_step_fst fetch (fuel + 1) p seen urls ls hf hne (by omega), hr]

/-- Witness for C5: the all-duplicate arm at a page repeating an
already-seen link, and the HasNew arm at a fresh configuration of the same
remote. -/
theorem all_duplicate_stops_hasNew_continues_witness :
    (dupFetch 3 = some ["/a"] ∧ ¬((["/a"] : List String) = [])
      ∧ (processLinks ["/a"] [full_url "/a"] [] 0).2.2 = 0
      ∧ 1 ≤ (processLinks ["/a"] [] [] 0).2.2)
    ∧ (collectAux dupFetch (4 + 1) 3 [full_url "/a"] []).1 = [3]
    ∧ (∃ rest, (collectAux dupFetch (4 + 2) 1 [] []).1 = 1 :: (1 + 1) :: rest) :=
  ⟨⟨rfl, by decide, by decide, by decide⟩,
   (all_duplicate_stops_hasNew_continues dupFetch 4 3 [full_url "/a"] [] ["/a"]
     rfl (by decide)).1 (by decide),
   ((all_duplicate_stops_hasNew_continues dupFetch 4 1 [] [] ["/a"]
     rfl (by decide)).2 (by decide)).2⟩

/-! ## Merger lemmas -/

lemma dedupAux_filter_seen (u : String) :
    ∀ (l : List MasterRow) (seen : List String), u ∈ seen →
      (dedupAux l seen).filter (fun r => r.url == u) = [] := by
  intro l
  induction l with
  | nil => intro seen _; rfl
  | cons r rest ih =>
    intro seen hu
    rw [dedupAux]
    by_cases hc : ¬(r.url = "") ∧ r.url ∉ seen
    · rw [if_pos hc]
      have hru : (r.url == u) = false := by
        have : r.url ≠ u := fun he => hc.2 (he ▸ hu)
        simpa using this
      rw [List.filter_cons, hru]
      simp only [Bool.false_eq_true, if_false]
      exact ih (r.url :: seen) (List.mem_cons_of_mem _ hu)
    · rw [if_neg hc]
      exact ih seen hu

lemma dedupAux_filter (u : String) (hu : u ≠ "") :
    ∀ (l : List MasterRow) (seen : List String), u ∉ seen →
      (dedupAux l seen).filter (fun r => r.url == u) =
        (l.find? (fun r => r.url == u)).toList := by
  intro l
  induction l with
  | nil => intro seen _; rfl
  | cons r rest ih =>
    intro seen hs
    rw [dedupAux, List.find?_cons]
    by_cases hru : r.url = u
    · have hbeq : (r.url == u) = true := by simpa using hru
      rw [hbeq]
      have hc : ¬(r.url = "") ∧ r.url ∉ seen := by
        constructor
        · rw [hru]; exact hu
        · rw [hru]; exact hs
      rw [if_pos hc, List.filter_cons, hbeq]
      simp only [if_true]
      rw [dedupAux_filter_seen u rest (r.url :: seen) (by rw [hru]; exact List.mem_cons_self u seen)]
      rfl
    · have hbeq : (r.url == u) = false := by simpa using hru
      rw [hbeq]
      simp only [Bool.false_eq_true, if_false]
      by_cases hc : ¬(r.url = "") ∧ r.url ∉ seen
      · rw [if_pos hc, List.filter_cons, hbeq]
        simp only [Bool.false_eq_true, if_false]
        exact ih (r.url :: seen)
          (fun hm => by
            rcases List.mem_cons.mp hm with he | hm'
            · exact hru he.symm
            · exact hs hm')
      · rw [if_neg hc]
        exact ih seen hs

lemma dedupAux_mem_url_ne :
    ∀ (l : List MasterRow) (seen : List String) (r : MasterRow),
      r ∈ dedupAux l seen → r.url ≠ "" := by
  intro l
  induction l with
  | nil => intro seen r hr; cases hr
  | cons a rest ih =>
    intro seen r hr
    rw [dedupAux] at hr
    by_cases hc : ¬(a.url = "") ∧ a.url ∉ seen
    · rw [if_pos hc] at hr
      rcases List.mem_cons.mp hr with rfl | hr'
      · exact hc.1
      · exact ih (a.url :: seen) r hr'
    · rw [if_neg hc] at hr
      exact ih seen r hr

/-! ## Claim theorems: merger -/

/-- C2: in the merged dataset, for every nonempty url the rows carrying
that url are exactly the first row of `ss_rows ++ cv_rows` carrying it —
the record of the earliest-processed source wins, kept whole, and all
later duplicates are dropped. -/
theorem merge_first_seen_wins (ss cv : List MasterRow) (u : String) (hu : u ≠ "") :
    (merge_and_save ss cv).filter (fun r => r.url == u) =
      ((ss ++ cv).find? (fun r => r.url == u)).toList :=
  dedupAux_filter u hu (ss ++ cv) [] (by simp)

/-- Witness for C2 at the two-record example: url "A" from source "x" with
title "T1" merged before url "A" from source "y" with title "T2" keeps
exactly the first record. -/
theorem merge_first_seen_wins_witness :
    ("A" : String) ≠ ""
    ∧ (merge_and_save [rowA1] [rowA2]).filter (fun r => r.url == "A") =
        (([rowA1] ++ [rowA2]).find? (fun r => r.url == "A")).toList
    ∧ merge_and_save [rowA1] [rowA2] = [rowA1]
    ∧ rowA1.title = "T1" :=
  ⟨by decide, merge_first_seen_wins [rowA1] [rowA2] "A" (by decide),
   by decide, rfl⟩

/-- C9 counterexample: a record whose url is absent (empty) is dropped
from the merged output entirely — there is no fallback to any other key. -/
theorem url_absent_dropped_counterexample :
    rowNoUrl.url = "" ∧ merge_and_save [rowNoUrl] [] = [] :=
  ⟨rfl, by decide⟩

/-- C9 (amended): the merge step keys records by their url verbatim; every
merged row has a nonempty url, and a nonempty url appears among the merged
rows exactly when some input row carries it — while rows with an absent or
empty url are dropped, not deduplicated by any fallback key. -/
theorem canonical_identity_url_only (ss cv : List MasterRow) (u : String)
    (hu : u ≠ "") :
    (∀ r ∈ merge_and_save ss cv, r.url ≠ "")
    ∧ ((∃ r ∈ ss ++ cv, r.url = u) ↔ ∃ r ∈ merge_and_save ss cv, r.url = u) := by
  have hfil : (merge_and_save ss cv).filter (fun r => r.url == u) =
      ((ss ++ cv).find? (fun r => r.url == u)).toList :=
    dedupAux_filter u hu (ss ++ cv) [] (by simp)
  constructor
  · intro r hr
    exact dedupAux_mem_url_ne (ss ++ cv) [] r hr
  · constructor
    · rintro ⟨r, hr, hru⟩
      have hsome : ((ss ++ cv).find? (fun r => r.url == u)).isSome := by
        rw [List.find?_isSome]
        exact ⟨r, hr, by simpa using hru⟩
      obtain ⟨r', hr'⟩ := Option.isSome_iff_exists.mp hsome
      have hmem : r' ∈ (merge_and_save ss cv).filter (fun r => r.url == u) := by
        rw [hfil, hr']
        exact List.mem_singleton_self r'
      refine ⟨r', List.mem_of_mem_filter hmem, ?_⟩
      have := List.of_mem_filter hmem
      simpa using this
    · rintro ⟨r, hr, hru⟩
      have hmem : r ∈ (merge_and_save ss cv).filter (fun x => x.url == u) :=
        List.mem_filter.mpr ⟨hr, by simpa using hru⟩
      rw [hfil] at hmem
      cases hfind : (ss ++ cv).find? (fun x => x.url == u) with
      | none => rw [hfind] at hmem; cases hmem
      | some r0 =>
        refine ⟨r0, List.mem_of_find?_eq_some hfind, ?_⟩
        have := List.find?_some hfind
        simpa using this

/-- Witness for C9 on a mixed input of one url-bearing row and one row
without url. -/
theorem canonical_identity_url_only_witness :
    ("A" : String) ≠ ""
    ∧ (∀ r ∈ merge_and_save [rowA1] [rowNoUrl], r.url ≠ "")
    ∧ ((∃ r ∈ [rowA1] ++ [rowNoUrl], r.url = "A") ↔
        ∃ r ∈ merge_and_save [rowA1] [rowNoUrl], r.url = "A") :=
  ⟨by decide,
   (canonical_identity_url_only [rowA1] [rowNoUrl] "A" (by decide)).1,
   (canonical_identity_url_only [rowA1] [rowNoUrl] "A" (by decide)).2⟩

/-! ## Orchestrator lemmas -/

lemma processUrl_snd_mono (detail : String → Option Detail) (cat date : String)
    (st : List JobRow × List String) (url x : String) (hx : x ∈ st.2) :
    x ∈ (processUrl detail cat date st url).2 := by
  rw [processUrl]
  cases h : detail url with
  | none => exact hx
  | some d => exact List.mem_append_left _ hx

lemma foldl_processUrl_snd_mono (detail : String → Option Detail) (cat date : String) :
    ∀ (l : List String) (st : List JobRow × List String) (x : String), x ∈ st.2 →
      x ∈ (l.foldl (processUrl detail cat date) st).2 := by
  intro l
  induction l with
  | nil => intro st x hx; exact hx
  | cons a t ih =>
    intro st x hx
    exact ih (processUrl detail cat date st a) x
      (processUrl_snd_mono detail cat date st a x hx)

lemma runCategory_snd_mono (listUrls : String → List String)
    (detail : String → Option Detail) (date : String)
    (st : List JobRow × List String) (cat : String × String) (x : String)
    (hx : x ∈ st.2) : x ∈ (runCategory listUrls detail date st cat).2 := by
  rw [runCategory]
  by_cases hnil : (listUrls cat.1).filter (fun u => decide (u ∉ st.2)) = []
  · rw [if_pos hnil]; exact hx
  · rw [if_neg hnil]
    exact foldl_processUrl_snd_mono detail cat.2 date _ st x hx

lemma foldl_runCategory_snd_mono (listUrls : String → List String)
    (detail : String → Option Detail) (date : String) :
    ∀ (cats : List (String × String)) (st : List JobRow × List String) (x : String),
      x ∈ st.2 → x ∈ (cats.foldl (runCategory listUrls detail date) st).2 := by
  intro cats
  induction cats with
  | nil => intro st x hx; exact hx
  | cons a t ih =>
    intro st x hx
    exact ih (runCategory listUrls detail date st a) x
      (runCategory_snd_mono listUrls detail date st a x hx)

lemma foldl_processUrl_covers (detail : String → Option Detail) (cat date : String) :
    ∀ (l : List String) (st : List JobRow × List String) (u : String), u ∈ l →
      detail u = none ∨ u ∈ (l.foldl (processUrl detail cat date) st).2 := by
  intro l
  induction l with
  | nil => intro st u hu; cases hu
  | cons a t ih =>
    intro st u hu
    rcases List.mem_cons.mp hu with rfl | hu'
    · cases hd : detail u with
      | none => exact Or.inl rfl
      | some d =>
        right
        show u ∈ (t.foldl (processUrl detail cat date) (processUrl detail cat date st u)).2
        apply foldl_processUrl_snd_mono
        rw [processUrl, hd]
        exact List.mem_append_right _ (List.mem_singleton_self u)
    · exact ih (processUrl detail cat date st a) u hu'

lemma runCategory_covers (listUrls : String → List String)
    (detail : String → Option Detail) (date : String)
    (st : List JobRow × List String) (cat : String × String) (u : String)
    (hu : u ∈ listUrls cat.1) :
    detail u = none ∨ u ∈ (runCategory listUrls detail date st cat).2 := by
  by_cases hmem : u ∈ st.2
  · exact Or.inr (runCategory_snd_mono listUrls detail date st cat u hmem)
  · have hfil : u ∈ (listUrls cat.1).filter (fun v => decide (v ∉ st.2)) :=
      List.mem_filter.mpr ⟨hu, by simpa using hmem⟩
    rw [runCategory]
    by_cases hnil : (listUrls cat.1).filter (fun v => decide (v ∉ st.2)) = []
    · exfalso; rw [hnil] at hfil; cases hfil
    · rw [if_neg hnil]
      exact foldl_processUrl_covers detail cat.2 date _ st u hfil

lemma run_covers (listUrls : String → List String) (detail : String → Option Detail)
    (date : String) :
    ∀ (cats : List (String × String)) (st : List JobRow × List String)
      (c : String × String), c ∈ cats → ∀ u ∈ listUrls c.1,
      detail u = none ∨ u ∈ (cats.foldl (runCategory listUrls detail date) st).2 := by
  intro cats
  induction cats with
  | nil => intro st c hc; cases hc
  | cons a t ih =>
    intro st c hc u hu
    rcases List.mem_cons.mp hc with rfl | hc'
    · rcases runCategory_covers listUrls detail date st c u hu with h | h
      · exact Or.inl h
      · exact Or.inr (foldl_runCategory_snd_mono listUrls detail date t _ u h)
    · exact ih (runCategory listUrls detail date st a) c hc' u hu

lemma foldl_processUrl_none (detail : String → Option Detail) (cat date : String) :
    ∀ (l : List String) (st : List JobRow × List String),
      (∀ u ∈ l, detail u = none) → l.foldl (processUrl detail cat date) st = st := by
  intro l
  induction l with
  | nil => intro st _; rfl
  | cons a t ih =>
    intro st hnone
    have hfa : processUrl detail cat date st a = st := by
      rw [processUrl, hnone a (List.mem_cons_self a t)]
    rw [List.foldl_cons, hfa]
    exact ih st (fun u hu => hnone u (List.mem_cons_of_mem a hu))

lemma runCategory_stable (listUrls : String → List String)
    (detail : String → Option Detail) (date : String)
    (st : List JobRow × List String) (cat : String × String)
    (hcov : ∀ u ∈ listUrls cat.1, u ∈ st.2 ∨ detail u = none) :
    runCategory listUrls detail date st cat = st := by
  rw [runCategory]
  by_cases hnil : (listUrls cat.1).filter (fun v => decide (v ∉ st.2)) = []
  · rw [if_pos hnil]
  · rw [if_neg hnil]
    apply foldl_processUrl_none
    intro u hu
    have hm := List.mem_filter.mp hu
    have hnot : u ∉ st.2 := by simpa using hm.2
    rcases hcov u hm.1 with h | h
    · exact absurd h hnot
    · exact h

lemma run_stable (listUrls : String → List String) (detail : String → Option Detail)
    (date : String) :
    ∀ (cats : List (String × String)) (st : List JobRow × List String),
      (∀ c ∈ cats, ∀ u ∈ listUrls c.1, u ∈ st.2 ∨ detail u = none) →
      cats.foldl (runCategory listUrls detail date) st = st := by
  intro cats
  induction cats with
  | nil => intro st _; rfl
  | cons a t ih =>
    intro st hcov
    have hfa : runCategory listUrls detail date st a = st :=
      runCategory_stable listUrls detail date st a
        (hcov a (List.mem_cons_self a t))
    rw [List.foldl_cons, hfa]
    exact ih st (fun c hc => hcov c (List.mem_cons_of_mem a hc))

lemma processUrl_snd_eq (detail : String → Option Detail) (cat date : String)
    (st : List JobRow × List String) (url : String)
    (hinv : st.2 = st.1.map (fun r => r.url)) :
    (processUrl detail cat date st url).2 =
      (processUrl detail cat date st url).1.map (fun r => r.url) := by
  rw [processUrl]
  cases h : detail url with
  | none => exact hinv
  | some d =>
    dsimp only
    rw [hinv, List.map_append]
    rfl

lemma foldl_processUrl_snd_eq (detail : String → Option Detail) (cat date : String) :
    ∀ (l : List String) (st : List JobRow × List String),
      st.2 = st.1.map (fun r => r.url) →
      (l.foldl (processUrl detail cat date) st).2 =
        (l.foldl (processUrl detail cat date) st).1.map (fun r => r.url) := by
  intro l
  induction l with
  | nil => intro st hinv; exact hinv
  | cons a t ih =>
    intro st hinv
    exact ih (processUrl detail cat date st a)
      (processUrl_snd_eq detail cat date st a hinv)

lemma runCategory_snd_eq (listUrls : String → List String)
    (detail : String → Option Detail) (date : String)
    (st : List JobRow × List String) (cat : String × String)
    (hinv : st.2 = st.1.map (fun r => r.url)) :
    (runCategory listUrls detail date st cat).2 =
      (runCategory listUrls detail date st cat).1.map (fun r => r.url) := by
  rw [runCategory]
  by_cases hnil : (listUrls cat.1).filter (fun v => decide (v ∉ st.2)) = []
  · rw [if_pos hnil]; exact hinv
  · rw [if_neg hnil]
    exact foldl_processUrl_snd_eq detail cat.2 date _ st hinv

lemma run_snd_eq (listUrls : String → List String) (detail : String → Option Detail)
    (date : String) :
    ∀ (cats : List (String × String)) (st : List JobRow × List String),
      st.2 = st.1.map (fun r => r.url) →
      (cats.foldl (runCategory listUrls detail date) st).2 =
        (cats.foldl (runCategory listUrls detail date) st).1.map (fun r => r.url) := by
  intro cats
  induction cats with
  | nil => intro st hinv; exact hinv
  | cons a t ih =>
    intro st hinv
    exact ih (runCategory listUrls detail date st a)
      (runCategory_snd_eq listUrls detail date st a hinv)

lemma run_scraper_rerun (listUrls : String → List String)
    (detail : String → Option Detail) (cats : List (String × String))
    (d2 : String) (csv1 : List JobRow)
    (hcov : ∀ c ∈ cats, ∀ u ∈ listUrls c.1,
      u ∈ csv1.map (fun r => r.url) ∨ detail u = none) :
    run_scraper listUrls detail cats d2 csv1 = csv1 := by
  rw [run_scraper]
  rw [run_stable listUrls detail d2 cats (csv1, load_existing_urls csv1) hcov]

/-! ## Claim theorems: checkpoint store, detail stage, orchestrator -/

/-- C1: for every starting dataset state and unchanged remote (the same
listing and detail outcomes), every url persisted by the first run is in
the set `load_existing_urls` reconstructs from the first run output, and a
second full run appends nothing: the artifact after two runs equals the
artifact after one run. -/
theorem run_scraper_idempotent_resume (listUrls : String → List String)
    (detail : String → Option Detail) (cats : List (String × String))
    (d1 d2 : String) (csv0 : List JobRow) :
    (∀ r ∈ run_scraper listUrls detail cats d1 csv0,
      r.url ∈ load_existing_urls (run_scraper listUrls detail cats d1 csv0))
    ∧ run_scraper listUrls detail cats d2 (run_scraper listUrls detail cats d1 csv0) =
        run_scraper listUrls detail cats d1 csv0 := by
  constructor
  · intro r hr
    exact List.mem_map_of_mem (fun r => r.url) hr
  · apply run_scraper_rerun
    intro c hc u hu
    rcases run_covers listUrls detail d1 cats
      (csv0, load_existing_urls csv0) c hc u hu with h | h
    · exact Or.inr h
    · left
      rw [run_snd_eq listUrls detail d1 cats (csv0, load_existing_urls csv0) rfl] at h
      exact h

/-- C6: the date-field invariant is broken by the
`except ValueError: posted_date = raw_date` branch: a detail page whose
"Datums" cell reads "12/02/2025" has that raw, non-ISO, nonempty string
persisted as `posted_date` by the pipeline, contradicting the docstring
"posted_date (format: YYYY-MM-DD if found, else empty string)". -/
theorem posted_date_invariant_violation :
    extract_posted_date (some "12/02/2025") = "12/02/2025"
    ∧ ∃ r ∈ run_scraper (fun _ => ["u1"])
        (fun _ => scrape_job_detail (some badDatePage)) [("s", "C")] "2025-01-01" [],
      r.posted_date = "12/02/2025" ∧ ¬(r.posted_date = "")
      ∧ isISO8601date r.posted_date = false := by
  refine ⟨by decide, ⟨"C", "", "u1", "12/02/2025", "2025-01-01", ""⟩, by decide, rfl,
    by decide, by decide⟩

/-- C7 counterexample: a fetched detail page from which no title (and no
other field) can be extracted is not classified as a failure: the scrape
returns a dict and the orchestrator appends a row with an empty title. -/
theorem no_parse_failure_counterexample :
    ¬(scrape_job_detail (some blankPage) = none)
    ∧ run_scraper (fun _ => ["u1"]) (fun _ => scrape_job_detail (some blankPage))
        [("s", "C")] "d" [] = [⟨"C", "", "u1", "", "d", ""⟩] :=
  ⟨by decide, by decide⟩

/-- C7 (amended): an item is skipped exactly when its detail page fetch
fails; whenever a page is fetched, `scrape_job_detail` returns a record —
with unextractable fields as empty strings — and the detail loop appends a
row for the item, so persistence is decided by the fetch alone, with no
required-field check. -/
theorem append_iff_page_fetched :
    (∀ fetched : Option DetailPage, scrape_job_detail fetched = none ↔ fetched = none)
    ∧ (∀ (pageOf : String → Option DetailPage) (cat date : String)
        (st : List JobRow × List String) (u : String),
        ((processUrl (fun v => scrape_job_detail (pageOf v)) cat date st u).1 = st.1
          ↔ pageOf u = none)) := by
  constructor
  · intro fetched
    cases fetched with
    | none => simp [scrape_job_detail]
    | some pg => simp [scrape_job_detail]
  · intro pageOf cat date st u
    rw [processUrl]
    cases hp : pageOf u with
    | none =>
      rw [scrape_job_detail]
      exact ⟨fun _ => rfl, fun _ => rfl⟩
    | some pg =>
      rw [scrape_job_detail]
      dsimp only
      constructor
      · intro h
        exfalso
        have hlen := congrArg List.length h
        rw [List.length_append] at hlen
        simp at hlen
      · intro h
        cases h

end JobScraper
